import Mathlib

/-!
Verification development for the dynamicgem graph-embedding library.

The definitions below are shallow embeddings of the Python sources:
  * `dynamicgem/evaluation/metrics.py`   (ranking metrics)
  * `dynamicgem/embedding/graphFac_dynamic.py` (dynamic graph factorization)

Numeric values are modelled with `ℚ`.  Fallible Python code (exceptions,
`return None`) is modelled with `Except String` / `Option`.  Randomness
(`np.random.randn`) is modelled by an explicit matrix argument supplied by
the caller.
-/

/-- Predicted edge: a `(source, target, score)` triple. -/
abbrev Edge := Nat × Nat × ℚ

/-- Ground-truth directed graph (`networkx.DiGraph` collaborator): a node
count plus an edge list over dense integer node ids. -/
structure TrueDigraph where
  numNodes : Nat
  edges : List (Nat × Nat)

/-- Membership test `true_digraph.has_edge(u, v)`. -/
def TrueDigraph.hasEdge (g : TrueDigraph) (u v : Nat) : Bool :=
  g.edges.contains (u, v)

/-- Out-degree `true_digraph.out_degree(u)`. -/
def TrueDigraph.outDegree (g : TrueDigraph) (u : Nat) : Nat :=
  (g.edges.filter fun e => e.1 == u).length

/-- Insert one edge into a descending-by-score list, after all entries with
an equal or larger score (stability of Python `sorted`). -/
def insertByScoreDesc (e : Edge) : List Edge → List Edge
  | [] => [e]
  | x :: xs => if x.2.2 < e.2.2 then e :: x :: xs else x :: insertByScoreDesc e xs

/-- Model of `sorted(predicted_edge_list, key=lambda x: x[2], reverse=True)`:
a stable sort, descending by score, ties kept in original order. -/
def sortByScoreDesc (l : List Edge) : List Edge :=
  l.foldl (fun acc e => insertByScoreDesc e acc) []

/-- The ranking loop shared by `computePrecisionCurve` (metrics.py lines
28-34) and the first loop of `computePrecisionCurve_changed` (lines
161-167): walk the ranked edges from global position `pos`, keeping the
running count `correct` of edges present in `g`.  Returns the precision
scores, the delta factors, and the final correct count. -/
def curveLoop (g : TrueDigraph) : List Edge → Nat → Nat → List ℚ × List ℚ × Nat
  | [], correct, _ => ([], [], correct)
  | e :: rest, correct, pos =>
    let hit := g.hasEdge e.1 e.2.1
    let c := if hit then correct + 1 else correct
    let r := curveLoop g rest c (pos + 1)
    ((c : ℚ) / ((pos : ℚ) + 1) :: r.1, (if hit then (1 : ℚ) else 0) :: r.2.1, r.2.2)

/-- Model of `computePrecisionCurve` (metrics.py lines 7-35).  `max_k = -1`
means "use all predictions"; otherwise the loop runs over the first
`min(max_k, len(predictions))` ranked entries. -/
def computePrecisionCurve (preds : List Edge) (g : TrueDigraph) (max_k : Int) : List ℚ × List ℚ :=
  let mk : Int := if max_k = -1 then (preds.length : Int) else min max_k (preds.length : Int)
  let r := curveLoop g ((sortByScoreDesc preds).take mk.toNat) 0 0
  (r.1, r.2.1)

/-- Model of `checkedges` (metrics.py lines 70-91) in its tuple branch: the
flag starts `False` and is set once some entry of `edge_list` has the same
source (`k[0] == e[0]`) and target (`k[1] == e[1]`) as `e`. -/
def checkedges (edge_list : List Edge) (e : Edge) : Bool :=
  edge_list.foldl (fun val k => if k.2.1 = e.2.1 ∧ k.1 = e.1 then true else val) false

/-- The clamped `max_k` computed by `computePrecisionCurve_changed`
(metrics.py lines 151-154).  The source assigns this value to its local
`max_k` and never reads it afterwards. -/
def clampedMaxK (preds node_edges_rm : List Edge) (max_k : Int) : Int :=
  if max_k = -1 then ((preds.length + node_edges_rm.length : Nat) : Int)
  else min max_k ((preds.length + node_edges_rm.length : Nat) : Int)

/-- The removed-edge loop of `computePrecisionCurve_changed` (metrics.py
lines 170-177): each removed edge scores a hit exactly when `checkedges`
does not find it among the predictions; positions continue from `pos`. -/
def removedLoop (preds : List Edge) : List Edge → Nat → Nat → List ℚ × List ℚ × Nat
  | [], correct, _ => ([], [], correct)
  | e :: rest, correct, pos =>
    let hit := !(checkedges preds e)
    let c := if hit then correct + 1 else correct
    let r := removedLoop preds rest c (pos + 1)
    ((c : ℚ) / ((pos : ℚ) + 1) :: r.1, (if hit then (1 : ℚ) else 0) :: r.2.1, r.2.2)

/-- Model of `computePrecisionCurve_changed` (metrics.py lines 139-180).
The clamped `max_k` is computed (as `_mk`) but, exactly as in the source,
the two scoring loops never use it: the first loop runs over all
`len(predicted_edge_list)` ranked entries, the second over all removed
edges, with positions continuing after the predictions. -/
def computePrecisionCurve_changed (preds : List Edge) (g : TrueDigraph)
    (node_edges_rm : List Edge) (max_k : Int) : List ℚ × List ℚ :=
  let _mk := clampedMaxK preds node_edges_rm max_k
  let r1 := curveLoop g (sortByScoreDesc preds) 0 0
  let r2 := removedLoop preds node_edges_rm r1.2.2 preds.length
  (r1.1 ++ r2.1, r1.2.1 ++ r2.2.1)

/-- The `node_edges` partition built by `computeMAP` (metrics.py lines
50-54): predictions are appended to the bucket of their source node;
a source index outside `[0, n)` raises `IndexError`. -/
def buildNodeEdges (n : Nat) : List Edge → List (List Edge) → Except String (List (List Edge))
  | [], acc => .ok acc
  | e :: rest, acc =>
    if e.1 < n then buildNodeEdges n rest (acc.set e.1 (acc.getD e.1 [] ++ [e]))
    else .error "IndexError"

/-- Per-node average precision (metrics.py lines 61-66): precision scores
are weighted by the delta factors; a node whose predictions contain no
match (all-zero delta factors) contributes `0`. -/
def nodeAP (g : TrueDigraph) (max_k : Int) (edges_i : List Edge) : ℚ :=
  let pr := computePrecisionCurve edges_i g max_k
  let precision_rectified := List.zipWith (fun p d => p * d) pr.1 pr.2
  if pr.2.sum = 0 then 0 else precision_rectified.sum / pr.2.sum

/-- The accumulation loop of `computeMAP` (metrics.py lines 57-66) over the
listed node ids: nodes with zero ground-truth out-degree are skipped,
every other node adds its average precision and bumps `count`. -/
def mapLoop (g : TrueDigraph) (max_k : Int) (nodeEdges : List (List Edge)) : List Nat → ℚ × Nat
  | [] => (0, 0)
  | i :: rest =>
    let r := mapLoop g max_k nodeEdges rest
    if g.outDegree i = 0 then r
    else (nodeAP g max_k (nodeEdges.getD i []) + r.1, r.2 + 1)

/-- Model of `computeMAP` (metrics.py lines 38-67).  The final statement
`sum(node_AP) / count` raises `ZeroDivisionError` when every node was
skipped (`count == 0`). -/
def computeMAP (preds : List Edge) (g : TrueDigraph) (max_k : Int) : Except String ℚ :=
  match buildNodeEdges g.numNodes preds (List.replicate g.numNodes []) with
  | .error e => .error e
  | .ok nodeEdges =>
    let r := mapLoop g max_k nodeEdges (List.range g.numNodes)
    if r.2 = 0 then .error "ZeroDivisionError" else .ok (r.1 / (r.2 : ℚ))

/-- The fixed report ranks (metrics.py line 4). -/
def precision_pos : List Nat := [2, 10, 100, 200, 300, 500, 1000]

/-- Model of `getPrecisionReport` (metrics.py lines 101-110).  Each report
entry is `some` numeric value (rendered `'%f'` in the source) or `none`
(rendered `'-'`).  The source emits the numeric value `prec_curv[p - 1]`
only under the strict test `p < len(prec_curv)`; for `p = 0` the Python
index `-1` reads the last entry. -/
def getPrecisionReport (prec_curv : List ℚ) (edge_num : Nat) : List (Option ℚ) :=
  (precision_pos ++ [edge_num]).map fun p =>
    if p < prec_curv.length then
      some (prec_curv.getD (if p = 0 then prec_curv.length - 1 else p - 1) 0)
    else none

/-- Hyperparameters stored by `GraphFactorization.__init__` (graphFac_dynamic.py
lines 47-58).  The learning rate `eta` is the initial value of the mutable
attribute `self._eta`; its current value is threaded explicitly below. -/
structure GFParams where
  n_iter : Nat
  n_iter_sub : Nat
  eta : ℚ
  regu : ℚ
  kappa : ℚ

/-- Previous-step embedding argument `prevEmbed`: either absent (`None`) or
an `m × d` matrix for some previous node count `m`. -/
abbrev PrevEmbed (d : Nat) := Option ((m : Nat) × Matrix (Fin m) (Fin d) ℚ)

/-- Model of the symmetry test `np.allclose(A.T, A)` (graphFac_dynamic.py
line 98) with numpy's default tolerances `rtol = 1e-5`, `atol = 1e-8`:
elementwise `|A.T[i,j] - A[i,j]| <= atol + rtol * |A[i,j]|`. -/
def allcloseSym {n : Nat} (A : Matrix (Fin n) (Fin n) ℚ) : Bool :=
  decide (∀ i j : Fin n, |A j i - A i j| ≤ 1 / 100000000 + |A i j| / 100000)

/-- Model of `edgeList = np.where(A > 0)` (graphFac_dynamic.py line 103):
all index pairs with a positive entry, in row-major order. -/
def edgePairs {n : Nat} (A : Matrix (Fin n) (Fin n) ℚ) : List (Fin n × Fin n) :=
  (List.finRange n).flatMap fun i =>
    (List.finRange n).filterMap fun j => if 0 < A i j then some (i, j) else none

/-- Dot product `np.dot(X[i, :], X[j, :])` of two embedding rows. -/
def rowDot {n d : Nat} (X : Matrix (Fin n) (Fin d) ℚ) (i j : Fin n) : ℚ :=
  ∑ k, X i k * X j k

/-- One per-edge gradient update (graphFac_dynamic.py lines 121-127): the
three gradient contributions for the visited edge `(i, j)` and the in-place
update of row `i` only.  The smoothness term is weighted by the scalar
attribute `self._kappa`. -/
def gradUpdate {n d : Nat} (p : GFParams) (eta : ℚ) (prevEmbed : PrevEmbed d)
    (A : Matrix (Fin n) (Fin n) ℚ) (X : Matrix (Fin n) (Fin d) ℚ) (i j : Fin n) :
    Matrix (Fin n) (Fin d) ℚ :=
  let delPhi1 : Fin d → ℚ := fun k => -(A i j - rowDot X i j) * X j k
  let delPhi2 : Fin d → ℚ := fun k => p.regu * X i k
  let delPhi3 : Fin d → ℚ := fun k =>
    match prevEmbed with
    | none => 0
    | some pe => if h : (i : Nat) < pe.1 then p.kappa * (X i k - pe.2 ⟨i, h⟩ k) else 0
  let delPhi : Fin d → ℚ := fun k => delPhi1 k + delPhi2 k + delPhi3 k
  X.updateRow i fun k => X i k - eta * delPhi k
/-- The edge loop of one iteration (graphFac_dynamic.py lines 118-127):
pairs with `i >= j` are skipped; the Boolean flag records whether the local
variable `delPhi` has been assigned by at least one processed edge. -/
def edgeSweep {n d : Nat} (p : GFParams) (eta : ℚ) (prevEmbed : PrevEmbed d)
    (A : Matrix (Fin n) (Fin n) ℚ) (pairs : List (Fin n × Fin n))
    (st : Matrix (Fin n) (Fin d) ℚ × Bool) : Matrix (Fin n) (Fin d) ℚ × Bool :=
  pairs.foldl
    (fun st ij =>
      if (ij.1 : Nat) < (ij.2 : Nat) then (gradUpdate p eta prevEmbed A st.1 ij.1 ij.2, true)
      else st)
    st

/-- The iteration loop `for iter_id in range(num_iter)` (graphFac_dynamic.py
lines 113-133).  After the edge loop, every iteration with
`iter_id % 100 == 0` executes the diagnostic print that reads `delPhi`
(lines 131-133); if no edge has ever been processed that local variable is
unbound and Python raises `UnboundLocalError`. -/
def runIters {n d : Nat} (p : GFParams) (eta : ℚ) (prevEmbed : PrevEmbed d)
    (A : Matrix (Fin n) (Fin n) ℚ) (pairs : List (Fin n × Fin n)) :
    Nat → Nat → Matrix (Fin n) (Fin d) ℚ × Bool → Except String (Matrix (Fin n) (Fin d) ℚ)
  | 0, _, st => .ok st.1
  | fuel + 1, iter_id, st =>
    let st2 := edgeSweep p eta prevEmbed A pairs st
    if iter_id % 100 = 0 ∧ st2.2 = false then .error "UnboundLocalError"
    else runIters p eta prevEmbed A pairs fuel (iter_id + 1) st2

/-- The embedding initialization (graphFac_dynamic.py lines 105-110):
`X = 0.01 * randn`, and when `prevEmbed` is given its rows overwrite the
first `prevEmbed.shape[0]` rows of `X`. -/
def gfInit {n d : Nat} (rand : Matrix (Fin n) (Fin d) ℚ) (prevEmbed : PrevEmbed d) :
    Matrix (Fin n) (Fin d) ℚ :=
  let X0 : Matrix (Fin n) (Fin d) ℚ := Matrix.of fun i k => (1 / 100) * rand i k
  match prevEmbed with
  | none => X0
  | some pe => Matrix.of fun i k => if h : (i : Nat) < pe.1 then pe.2 ⟨i, h⟩ k else X0 i k

/-- The iteration budget (graphFac_dynamic.py lines 104 and 110):
`self._n_iter`, overwritten with `self._n_iter_sub` when a previous
embedding is supplied. -/
def gfNumIter {d : Nat} (p : GFParams) (prevEmbed : PrevEmbed d) : Nat :=
  match prevEmbed with
  | none => p.n_iter
  | some _ => p.n_iter_sub

/-- Model of `learn_embedding` (graphFac_dynamic.py lines 87-135).  A
non-symmetric adjacency matrix makes the source print a warning and
`return` (i.e. return `None`, modelled `.ok none`) without touching any
embedding state; otherwise the gradient-descent loop runs and either
returns the embedding or raises. -/
def learn_embedding {n d : Nat} (p : GFParams) (eta : ℚ) (A : Matrix (Fin n) (Fin n) ℚ)
    (rand : Matrix (Fin n) (Fin d) ℚ) (prevEmbed : PrevEmbed d) :
    Except String (Option (Matrix (Fin n) (Fin d) ℚ)) :=
  if allcloseSym A then
    (runIters p eta prevEmbed A (edgePairs A) (gfNumIter p prevEmbed) 0
      (gfInit rand prevEmbed, false)).map some
  else .ok none

/-- Executable determinant of a rational matrix by Laplace expansion along
row 0; proved equal to `Matrix.det` below. -/
def detExec : {n : Nat} → Matrix (Fin n) (Fin n) ℚ → ℚ
  | 0, _ => 1
  | n + 1, A =>
    ∑ j : Fin (n + 1), (-1) ^ (j : ℕ) * A 0 j * detExec (A.submatrix Fin.succ j.succAbove)

/-- Executable adjugate via cofactors; proved equal to `Matrix.adjugate`
below. -/
def adjExec : {n : Nat} → Matrix (Fin n) (Fin n) ℚ → Matrix (Fin n) (Fin n) ℚ
  | 0, _ => 1
  | _ + 1, A =>
    Matrix.of fun i j =>
      (-1) ^ ((j : ℕ) + (i : ℕ)) * detExec (A.submatrix (Fin.succAbove j) (Fin.succAbove i))

/-- Executable matrix inverse `np.linalg.inv` for a nonsingular input;
proved equal to Mathlib's `A⁻¹` below. -/
def matInv {n : Nat} (A : Matrix (Fin n) (Fin n) ℚ) : Matrix (Fin n) (Fin n) ℚ :=
  (detExec A)⁻¹ • adjExec A

/-- The row-sum clamp of graphFac_dynamic.py line 157:
`S_sum[S_sum == 0] = 0.01`. -/
def clampRow (s : ℚ) : ℚ := if s = 0 then 1 / 100 else s

/-- The temporal-smoothing computation of `learn_embeddings`
(graphFac_dynamic.py lines 149-158): `delX = |A_t - A_{t-1}|`,
`M_g = I - beta*delX`, `M_l = beta*delX` with `beta = 0.01`,
`S = inv(M_g) @ M_l`, clamped row sums, and `kappas = kappa / S_sum`.
`np.linalg.inv` raises `LinAlgError` on a singular `M_g`. -/
def tsKappas {n : Nat} (kappa_base : ℚ) (A_prev A_curr : Matrix (Fin n) (Fin n) ℚ) :
    Except String (Fin n → ℚ) :=
  let delX : Matrix (Fin n) (Fin n) ℚ := Matrix.of fun i j => |A_curr i j - A_prev i j|
  let beta : ℚ := 1 / 100
  let M_g : Matrix (Fin n) (Fin n) ℚ := 1 - beta • delX
  let M_l : Matrix (Fin n) (Fin n) ℚ := beta • delX
  if detExec M_g = 0 then .error "LinAlgError"
  else
    let S := matInv M_g * M_l
    .ok fun i => kappa_base / clampRow (∑ j, S i j)

/-- The loop body sequence of `learn_embeddings` for steps `t >= 1`
(graphFac_dynamic.py lines 147-160), threading the previous adjacency
matrix, the previous stored embedding, the mutable learning rate and the
step index `t` (used to index the modelled randomness).  The per-node
`kappas` vector is bound (the source stores it in `self._kappas`) but the
factorization call reads only the scalar `self._kappa`, exactly as in the
source.  A stored `None` embedding makes the next call crash on
`prevEmbed.shape[0]` (`IndexError`).  Returns the embeddings of-state and
the history of learning-rate values used at each step. -/
def driverLoop {n d : Nat} (p : GFParams) (rand : Nat → Matrix (Fin n) (Fin d) ℚ) :
    Matrix (Fin n) (Fin n) ℚ → Option (Matrix (Fin n) (Fin d) ℚ) → ℚ → Nat →
    List (Matrix (Fin n) (Fin n) ℚ) →
    Except String (List (Option (Matrix (Fin n) (Fin d) ℚ)) × List ℚ)
  | _, _, _, _, [] => .ok ([], [])
  | A_prev, prevX, eta, t, A :: rest =>
    match tsKappas p.kappa A_prev A with
    | .error e => .error e
    | .ok _kappas =>
      let eta2 := eta / 10
      match prevX with
      | none => .error "IndexError"
      | some P =>
        match learn_embedding p eta2 A (rand t) (some ⟨n, P⟩) with
        | .error e => .error e
        | .ok X =>
          match driverLoop p rand A X eta2 (t + 1) rest with
          | .error e => .error e
          | .ok r => .ok (X :: r.1, eta2 :: r.2)

/-- Model of `learn_embeddings` (graphFac_dynamic.py lines 137-162).  The
first snapshot runs `learn_embedding` with the initial learning rate
`p.eta` and the optional externally supplied initial embedding
(`self._initEmbed` under `prevStepInfo`, modelled by `initPrev`); every
later snapshot runs the `driverLoop` body.  An empty snapshot list makes
`graphs[0]` raise `IndexError`.  Returns the stored embedding list
`self._Xs` and the learning-rate history. -/
def learn_embeddings {n d : Nat} (p : GFParams) (snaps : List (Matrix (Fin n) (Fin n) ℚ))
    (rand : Nat → Matrix (Fin n) (Fin d) ℚ) (initPrev : PrevEmbed d) :
    Except String (List (Option (Matrix (Fin n) (Fin d) ℚ)) × List ℚ) :=
  match snaps with
  | [] => .error "IndexError"
  | A0 :: rest =>
    match learn_embedding p p.eta A0 (rand 0) initPrev with
    | .error e => .error e
    | .ok X0 =>
      match driverLoop p rand A0 X0 p.eta 1 rest with
      | .error e => .error e
      | .ok r => .ok (X0 :: r.1, p.eta :: r.2)

/-- Embedding list stored by a completed driver run (`[]` on an exception). -/
def runXs {n d : Nat} (r : Except String (List (Option (Matrix (Fin n) (Fin d) ℚ)) × List ℚ)) :
    List (Option (Matrix (Fin n) (Fin d) ℚ)) :=
  match r with
  | .ok pr => pr.1
  | .error _ => []

/-- Learning-rate history of a completed driver run (`[]` on an exception). -/
def runEtas {n d : Nat} (r : Except String (List (Option (Matrix (Fin n) (Fin d) ℚ)) × List ℚ)) :
    List ℚ :=
  match r with
  | .ok pr => pr.2
  | .error _ => []

/-- Entry `(i, k)` of the `t`-th stored embedding (`0` when absent). -/
def entryAt {n d : Nat} (xs : List (Option (Matrix (Fin n) (Fin d) ℚ))) (t : Nat) (i : Fin n)
    (k : Fin d) : ℚ :=
  ((xs.getD t none).getD 0) i k

/-- Whether an `Except` computation finished normally. -/
def isOkE {α : Type} (r : Except String α) : Bool :=
  match r with
  | .ok _ => true
  | .error _ => false

/-- Component `i` of a penalty-vector computation (`0` on an exception). -/
def kappasVal {n : Nat} (r : Except String (Fin n → ℚ)) (i : Fin n) : ℚ :=
  match r with
  | .ok f => f i
  | .error _ => 0

/-- Claim-side variant of `gradUpdate`, following the specification text for
claim C1: the smoothness gradient of node `i` is weighted by the per-node
value `kap i` instead of the scalar attribute `self._kappa`. -/
def gradUpdatePN {n d : Nat} (p : GFParams) (kap : Fin n → ℚ) (eta : ℚ) (prevEmbed : PrevEmbed d)
    (A : Matrix (Fin n) (Fin n) ℚ) (X : Matrix (Fin n) (Fin d) ℚ) (i j : Fin n) :
    Matrix (Fin n) (Fin d) ℚ :=
  let delPhi1 : Fin d → ℚ := fun k => -(A i j - rowDot X i j) * X j k
  let delPhi2 : Fin d → ℚ := fun k => p.regu * X i k
  let delPhi3 : Fin d → ℚ := fun k =>
    match prevEmbed with
    | none => 0
    | some pe => if h : (i : Nat) < pe.1 then kap i * (X i k - pe.2 ⟨i, h⟩ k) else 0
  let delPhi : Fin d → ℚ := fun k => delPhi1 k + delPhi2 k + delPhi3 k
  X.updateRow i fun k => X i k - eta * delPhi k

/-- Claim-side variant of `edgeSweep` threading the per-node weights. -/
def edgeSweepPN {n d : Nat} (p : GFParams) (kap : Fin n → ℚ) (eta : ℚ) (prevEmbed : PrevEmbed d)
    (A : Matrix (Fin n) (Fin n) ℚ) (pairs : List (Fin n × Fin n))
    (st : Matrix (Fin n) (Fin d) ℚ × Bool) : Matrix (Fin n) (Fin d) ℚ × Bool :=
  pairs.foldl
    (fun st ij =>
      if (ij.1 : Nat) < (ij.2 : Nat) then (gradUpdatePN p kap eta prevEmbed A st.1 ij.1 ij.2, true)
      else st)
    st

/-- Claim-side variant of `runIters` threading the per-node weights. -/
def runItersPN {n d : Nat} (p : GFParams) (kap : Fin n → ℚ) (eta : ℚ) (prevEmbed : PrevEmbed d)
    (A : Matrix (Fin n) (Fin n) ℚ) (pairs : List (Fin n × Fin n)) :
    Nat → Nat → Matrix (Fin n) (Fin d) ℚ × Bool → Except String (Matrix (Fin n) (Fin d) ℚ)
  | 0, _, st => .ok st.1
  | fuel + 1, iter_id, st =>
    let st2 := edgeSweepPN p kap eta prevEmbed A pairs st
    if iter_id % 100 = 0 ∧ st2.2 = false then .error "UnboundLocalError"
    else runItersPN p kap eta prevEmbed A pairs fuel (iter_id + 1) st2

/-- Claim-side variant of `learn_embedding` taking the per-node weights. -/
def learn_embeddingPN {n d : Nat} (p : GFParams) (kap : Fin n → ℚ) (eta : ℚ)
    (A : Matrix (Fin n) (Fin n) ℚ) (rand : Matrix (Fin n) (Fin d) ℚ) (prevEmbed : PrevEmbed d) :
    Except String (Option (Matrix (Fin n) (Fin d) ℚ)) :=
  if allcloseSym A then
    (runItersPN p kap eta prevEmbed A (edgePairs A) (gfNumIter p prevEmbed) 0
      (gfInit rand prevEmbed, false)).map some
  else .ok none

/-- Claim-side variant of `driverLoop` in which the computed per-node vector
`kappas` is actually passed to the factorization step, as claim C1 states. -/
def driverLoopPN {n d : Nat} (p : GFParams) (rand : Nat → Matrix (Fin n) (Fin d) ℚ) :
    Matrix (Fin n) (Fin n) ℚ → Option (Matrix (Fin n) (Fin d) ℚ) → ℚ → Nat →
    List (Matrix (Fin n) (Fin n) ℚ) →
    Except String (List (Option (Matrix (Fin n) (Fin d) ℚ)) × List ℚ)
  | _, _, _, _, [] => .ok ([], [])
  | A_prev, prevX, eta, t, A :: rest =>
    match tsKappas p.kappa A_prev A with
    | .error e => .error e
    | .ok kappas =>
      let eta2 := eta / 10
      match prevX with
      | none => .error "IndexError"
      | some P =>
        match learn_embeddingPN p kappas eta2 A (rand t) (some ⟨n, P⟩) with
        | .error e => .error e
        | .ok X =>
          match driverLoopPN p rand A X eta2 (t + 1) rest with
          | .error e => .error e
          | .ok r => .ok (X :: r.1, eta2 :: r.2)

/-- Claim-side variant of `learn_embeddings` built on `driverLoopPN`; the
first step has no temporal term, so its weights are the broadcast scalar. -/
def learn_embeddingsPN {n d : Nat} (p : GFParams) (snaps : List (Matrix (Fin n) (Fin n) ℚ))
    (rand : Nat → Matrix (Fin n) (Fin d) ℚ) (initPrev : PrevEmbed d) :
    Except String (List (Option (Matrix (Fin n) (Fin d) ℚ)) × List ℚ) :=
  match snaps with
  | [] => .error "IndexError"
  | A0 :: rest =>
    match learn_embeddingPN p (fun _ => p.kappa) p.eta A0 (rand 0) initPrev with
    | .error e => .error e
    | .ok X0 =>
      match driverLoopPN p rand A0 X0 p.eta 1 rest with
      | .error e => .error e
      | .ok r => .ok (X0 :: r.1, p.eta :: r.2)

/-- Parameters for the concrete driver runs: `d = 1`, `n_iter = 1`,
`n_iter_sub = 2`, `eta = 1`, `regu = 0`, `kappa = 1`. -/
def gfP1 : GFParams := ⟨1, 2, 1, 0, 1⟩

/-- Parameters with a single subsequent-step iteration. -/
def gfP8 : GFParams := ⟨1, 1, 1, 0, 1⟩

/-- A symmetric two-node adjacency matrix with one (weighted) edge. -/
def adjC1 : Matrix (Fin 2) (Fin 2) ℚ := !![0, 2; 2, 0]

/-- Modelled randomness for the concrete runs: the first call returns a
fixed matrix, later calls return zero (their rows are overwritten). -/
def randC1 : Nat → Matrix (Fin 2) (Fin 1) ℚ := fun t => if t = 0 then !![0; 200] else 0

/-- A two-node ground-truth graph with the single edge `(0, 1)`. -/
def gC3 : TrueDigraph := ⟨2, [(0, 1)]⟩

/-- A non-symmetric adjacency matrix. -/
def adjNS : Matrix (Fin 2) (Fin 2) ℚ := !![0, 1; 0, 0]

/-- Another non-symmetric adjacency matrix. -/
def adjNS2 : Matrix (Fin 2) (Fin 2) ℚ := !![0, 3; 0, 0]

theorem checkedges_foldl (e : Edge) (l : List Edge) (b : Bool) :
    l.foldl (fun val k => if k.2.1 = e.2.1 ∧ k.1 = e.1 then true else val) b =
      (b || l.any fun k => decide (k.2.1 = e.2.1 ∧ k.1 = e.1)) := by
  induction l generalizing b with
  | nil => simp
  | cons x xs ih =>
    simp only [List.foldl_cons, List.any_cons, ih]
    by_cases h : x.2.1 = e.2.1 ∧ x.1 = e.1
    · simp [h]
    · simp [h]

theorem checkedges_true_iff (preds : List Edge) (e : Edge) :
    checkedges preds e = true ↔ ∃ k ∈ preds, k.1 = e.1 ∧ k.2.1 = e.2.1 := by
  unfold checkedges
  rw [checkedges_foldl]
  simp only [Bool.false_or, List.any_eq_true, decide_eq_true_eq]
  constructor
  · rintro ⟨k, hk, h1, h2⟩; exact ⟨k, hk, h2, h1⟩
  · rintro ⟨k, hk, h1, h2⟩; exact ⟨k, hk, h2, h1⟩

theorem removedLoop_deltas (preds : List Edge) :
    ∀ (rm : List Edge) (c pos : Nat),
      (removedLoop preds rm c pos).2.1 =
        rm.map fun e => if checkedges preds e then (0 : ℚ) else 1 := by
  intro rm
  induction rm with
  | nil => intro c pos; rfl
  | cons e rest ih =>
    intro c pos
    simp only [removedLoop, List.map_cons, ih]
    by_cases h : checkedges preds e
    · simp [h]
    · simp [h]

theorem removedLoop_count (preds : List Edge) :
    ∀ (rm : List Edge) (c pos : Nat),
      (removedLoop preds rm c pos).2.2 =
        c + (rm.filter fun e => !(checkedges preds e)).length := by
  intro rm
  induction rm with
  | nil => intro c pos; simp [removedLoop]
  | cons e rest ih =>
    intro c pos
    by_cases h : checkedges preds e
    · simp [removedLoop, h, ih, List.filter_cons]
    · simp [removedLoop, h, ih, List.filter_cons]
      omega

theorem removedLoop_scores_length (preds : List Edge) :
    ∀ (rm : List Edge) (c pos : Nat), (removedLoop preds rm c pos).1.length = rm.length := by
  intro rm
  induction rm with
  | nil => intro c pos; rfl
  | cons e rest ih => intro c pos; simp only [removedLoop, List.length_cons, ih]

theorem curveLoop_scores_length (g : TrueDigraph) :
    ∀ (l : List Edge) (c pos : Nat), (curveLoop g l c pos).1.length = l.length := by
  intro l
  induction l with
  | nil => intro c pos; rfl
  | cons e rest ih => intro c pos; simp only [curveLoop, List.length_cons, ih]

theorem insertByScoreDesc_length (e : Edge) (l : List Edge) :
    (insertByScoreDesc e l).length = l.length + 1 := by
  induction l with
  | nil => rfl
  | cons x xs ih =>
    simp only [insertByScoreDesc]
    by_cases h : x.2.2 < e.2.2
    · simp [h]
    · simp [h, ih]

theorem sort_foldl_length :
    ∀ (l acc : List Edge),
      (l.foldl (fun a e => insertByScoreDesc e a) acc).length = acc.length + l.length := by
  intro l
  induction l with
  | nil => intro acc; simp
  | cons e rest ih =>
    intro acc
    simp only [List.foldl_cons, ih, insertByScoreDesc_length, List.length_cons]
    omega

theorem sortByScoreDesc_length (l : List Edge) : (sortByScoreDesc l).length = l.length := by
  unfold sortByScoreDesc
  rw [sort_foldl_length]
  simp

/-- C7: in `computePrecisionCurve_changed` the removed edges are scored
after all genuine predictions and in their original order (the delta-factor
list is the prediction part followed by the mapped removed list); a removed
edge scores a hit, incrementing the running correct count, exactly when no
entry of the predicted-edge list has the same `(source, target)` pair, and
scores a miss when some prediction matches it. -/
theorem changed_curve_removed_after_predictions (preds removed : List Edge) (g : TrueDigraph)
    (max_k : Int) :
    (computePrecisionCurve_changed preds g removed max_k).2 =
        (curveLoop g (sortByScoreDesc preds) 0 0).2.1 ++
          (removed.map fun e => if checkedges preds e then (0 : ℚ) else 1) ∧
    (∀ e : Edge, checkedges preds e = true ↔ ∃ k ∈ preds, k.1 = e.1 ∧ k.2.1 = e.2.1) ∧
    (∀ c pos : Nat, (removedLoop preds removed c pos).2.2 =
        c + (removed.filter fun e => !(checkedges preds e)).length) ∧
    (computePrecisionCurve_changed preds g removed max_k).1.length =
        preds.length + removed.length := by
  refine ⟨?_, fun e => checkedges_true_iff preds e,
    fun c pos => removedLoop_count preds removed c pos, ?_⟩
  · simp only [computePrecisionCurve_changed]
    rw [removedLoop_deltas]
  · simp only [computePrecisionCurve_changed, List.length_append]
    rw [curveLoop_scores_length, removedLoop_scores_length, sortByScoreDesc_length]

/-- C3: evaluation of `computePrecisionCurve_changed` at a failing input
for the claim "`max_k` bounds the combined number of scored entries": with
two predictions, no removed edges and `max_k = 1` the source clamps the
bound to `1` but still returns length-`2` score and indicator lists. -/
theorem changed_curve_maxk_not_enforced_eval :
    clampedMaxK [(0, 1, (1 : ℚ)), (1, 0, (1 : ℚ))] [] 1 = 1 ∧
    (computePrecisionCurve_changed [(0, 1, (1 : ℚ)), (1, 0, (1 : ℚ))] gC3 [] 1).1.length = 2 ∧
    (computePrecisionCurve_changed [(0, 1, (1 : ℚ)), (1, 0, (1 : ℚ))] gC3 [] 1).2.length = 2 :=
  of_decide_eq_true (by with_unfolding_all rfl)

/-- C5 (amended): `getPrecisionReport` substitutes `"-"` (here `none`) for
a requested rank `p` exactly when the curve has at most `p` entries — the
source test `p < len(prec_curv)` is strict, so a curve of length exactly
`p` also yields `"-"`; the numeric value at position `p - 1` appears only
when the curve is strictly longer than `p`. -/
theorem report_dash_iff_curve_not_longer (prec_curv : List ℚ) (edge_num k p : Nat)
    (hk : (precision_pos ++ [edge_num])[k]? = some p) :
    ((getPrecisionReport prec_curv edge_num)[k]? = some none ↔ prec_curv.length ≤ p) ∧
    (1 ≤ p → p < prec_curv.length →
      (getPrecisionReport prec_curv edge_num)[k]? = some (some (prec_curv.getD (p - 1) 0))) := by
  have hmap : (getPrecisionReport prec_curv edge_num)[k]? =
      ((precision_pos ++ [edge_num])[k]?).map fun q =>
        if q < prec_curv.length then
          some (prec_curv.getD (if q = 0 then prec_curv.length - 1 else q - 1) 0)
        else none := by
    unfold getPrecisionReport
    exact List.getElem?_map _ _ _
  rw [hmap, hk, Option.map_some']
  constructor
  · by_cases hp : p < prec_curv.length
    · rw [if_pos hp]
      simp only [Option.some.injEq]
      constructor
      · intro hcon; exact absurd hcon (by simp)
      · intro hle; omega
    · rw [if_neg hp]
      simp only [Option.some.injEq, true_iff, eq_self_iff_true]
      omega
  · intro h1 h2
    rw [if_pos h2, if_neg (by omega)]

/-- C5 counterexample: a curve of length exactly `2` together with the
requested rank `p = 2` (both the first fixed rank and `edge_num = 2`)
produces `"-"` in every slot, although the claim as stated requires the
numeric value `prec_curv[1]` whenever the curve has at least `p` entries. -/
theorem report_dash_at_equal_length_eval :
    ([(1 : ℚ), 1/2] : List ℚ).length = 2 ∧
    getPrecisionReport [(1 : ℚ), 1/2] 2 = [none, none, none, none, none, none, none, none] :=
  ⟨rfl, by with_unfolding_all rfl⟩

/-- Witness for `report_dash_iff_curve_not_longer` at the curve
`[1, 1/2]`, `edge_num = 1`, slot `k = 7`, rank `p = 1`. -/
theorem report_dash_iff_witness :
    ((getPrecisionReport [(1 : ℚ), 1/2] 1)[7]? = some none ↔
        ([(1 : ℚ), 1/2] : List ℚ).length ≤ 1) ∧
    (1 ≤ 1 → 1 < ([(1 : ℚ), 1/2] : List ℚ).length →
      (getPrecisionReport [(1 : ℚ), 1/2] 1)[7]? =
        some (some (([(1 : ℚ), 1/2] : List ℚ).getD (1 - 1) 0))) :=
  report_dash_iff_curve_not_longer [(1 : ℚ), 1/2] 1 7 1 (by with_unfolding_all rfl)

theorem mapLoop_filter (g : TrueDigraph) (max_k : Int) (ne : List (List Edge)) :
    ∀ l : List Nat,
      mapLoop g max_k ne l =
        ((((l.filter fun i => g.outDegree i != 0).map
            fun i => nodeAP g max_k (ne.getD i [])).sum,
          (l.filter fun i => g.outDegree i != 0).length) : ℚ × Nat) := by
  intro l
  induction l with
  | nil => rfl
  | cons i rest ih =>
    by_cases h : g.outDegree i = 0
    · simp [mapLoop, h, ih, List.filter_cons]
    · simp [mapLoop, h, ih, List.filter_cons]

theorem buildNodeEdges_total (n : Nat) :
    ∀ (preds : List Edge) (acc : List (List Edge)), (∀ e ∈ preds, e.1 < n) →
      ∃ ne, buildNodeEdges n preds acc = .ok ne := by
  intro preds
  induction preds with
  | nil => intro acc _; exact ⟨acc, rfl⟩
  | cons e rest ih =>
    intro acc h
    have he : e.1 < n := h e (List.mem_cons_self e rest)
    simp only [buildNodeEdges, if_pos he]
    exact ih _ fun x hx => h x (List.mem_cons_of_mem e hx)

/-- C4 (amended): `computeMAP` excludes nodes with zero ground-truth
out-degree from both the average-precision sum and the divisor count, and a
precision curve with all-zero delta factors contributes average precision
`0`; the call returns a value whenever every prediction's source index is
in range and at least one node has nonzero out-degree.  (When every node
has zero out-degree the divisor `count` is `0` and the source raises
`ZeroDivisionError`; see the counterexample.) -/
theorem computeMAP_zero_outdegree_rules (preds : List Edge) (g : TrueDigraph) (max_k : Int)
    (h1 : ∀ e ∈ preds, e.1 < g.numNodes)
    (h2 : ∃ i, i < g.numNodes ∧ g.outDegree i ≠ 0) :
    ∃ ne, buildNodeEdges g.numNodes preds (List.replicate g.numNodes []) = .ok ne ∧
      computeMAP preds g max_k = .ok
        ((((List.range g.numNodes).filter fun i => g.outDegree i != 0).map
            fun i => nodeAP g max_k (ne.getD i [])).sum /
          ((((List.range g.numNodes).filter fun i => g.outDegree i != 0).length : ℚ))) ∧
      ∀ l : List Edge, (computePrecisionCurve l g max_k).2.sum = 0 → nodeAP g max_k l = 0 := by
  obtain ⟨ne, hne⟩ := buildNodeEdges_total g.numNodes preds (List.replicate g.numNodes []) h1
  refine ⟨ne, hne, ?_, ?_⟩
  · have hcount : ((List.range g.numNodes).filter fun i => g.outDegree i != 0).length ≠ 0 := by
      obtain ⟨i, hi, hdi⟩ := h2
      have hmem : i ∈ (List.range g.numNodes).filter fun i => g.outDegree i != 0 := by
        rw [List.mem_filter]
        exact ⟨List.mem_range.mpr hi, by simpa using hdi⟩
      have hnil := List.ne_nil_of_mem hmem
      simpa [List.length_eq_zero] using hnil
    simp only [computeMAP, hne, mapLoop_filter]
    rw [if_neg hcount]
  · intro l hl
    simp [nodeAP, hl]

/-- C4 counterexample: on a ground truth whose every node has zero
out-degree (one node, no edges) and an empty prediction list, `computeMAP`
does not return a value: the final division has `count = 0` and the source
raises `ZeroDivisionError`, contradicting the claim's "never raises". -/
theorem computeMAP_all_zero_outdegree_raises :
    computeMAP [] ⟨1, []⟩ (-1) = .error "ZeroDivisionError" := by
  with_unfolding_all rfl

/-- Witness for `computeMAP_zero_outdegree_rules` on a two-node graph with
the single edge `(0, 1)` and the single correct prediction `(0, 1)`. -/
theorem computeMAP_zero_outdegree_rules_witness :
    ∃ ne, buildNodeEdges gC3.numNodes [(0, 1, (1 : ℚ))] (List.replicate gC3.numNodes []) = .ok ne ∧
      computeMAP [(0, 1, (1 : ℚ))] gC3 (-1) = .ok
        ((((List.range gC3.numNodes).filter fun i => gC3.outDegree i != 0).map
            fun i => nodeAP gC3 (-1) (ne.getD i [])).sum /
          ((((List.range gC3.numNodes).filter fun i => gC3.outDegree i != 0).length : ℚ))) ∧
      ∀ l : List Edge, (computePrecisionCurve l gC3 (-1)).2.sum = 0 → nodeAP gC3 (-1) l = 0 :=
  computeMAP_zero_outdegree_rules [(0, 1, (1 : ℚ))] gC3 (-1) (by decide)
    ⟨0, by decide, by decide⟩

/-- C2 (amended): on a non-symmetric adjacency matrix the plain
factorization path does not raise a domain error — it prints a warning and
returns `None` (modelled `.ok none`), producing and storing no embedding. -/
theorem learn_embedding_nonsymmetric_returns_none {n d : Nat} (p : GFParams) (eta : ℚ)
    (A : Matrix (Fin n) (Fin n) ℚ) (rand : Matrix (Fin n) (Fin d) ℚ) (prevEmbed : PrevEmbed d)
    (h : allcloseSym A = false) :
    learn_embedding p eta A rand prevEmbed = .ok none := by
  simp [learn_embedding, h]

/-- C2 counterexample: at the concrete non-symmetric matrix `adjNS2` the
call returns normally with `None` — in particular it does not abort with an
error, contrary to the claim's "raises a domain error". -/
theorem learn_embedding_nonsymmetric_no_raise_eval :
    learn_embedding gfP1 1 adjNS2 (0 : Matrix (Fin 2) (Fin 1) ℚ) none = .ok none ∧
    ∀ msg : String, learn_embedding gfP1 1 adjNS2 (0 : Matrix (Fin 2) (Fin 1) ℚ) none ≠
      .error msg := by
  constructor
  · with_unfolding_all rfl
  · intro msg hmsg
    rw [show learn_embedding gfP1 1 adjNS2 (0 : Matrix (Fin 2) (Fin 1) ℚ) none = .ok none from
      by with_unfolding_all rfl] at hmsg
    exact Except.noConfusion hmsg

/-- Witness for `learn_embedding_nonsymmetric_returns_none` at `adjNS`. -/
theorem learn_embedding_nonsymmetric_returns_none_witness :
    learn_embedding gfP1 1 adjNS (0 : Matrix (Fin 2) (Fin 1) ℚ) none = .ok none :=
  learn_embedding_nonsymmetric_returns_none gfP1 1 adjNS 0 none (by with_unfolding_all rfl)

/-- C9: when a previous embedding with `m` rows is supplied, the iteration
budget becomes `n_iter_sub`, the first `m` rows of the initial matrix are
the exact rows of the previous embedding, and the remaining rows keep the
`0.01`-scaled random initialization. -/
theorem warmstart_init_and_budget {n d m : Nat} (p : GFParams)
    (rand : Matrix (Fin n) (Fin d) ℚ) (P : Matrix (Fin m) (Fin d) ℚ) (hmn : m ≤ n) :
    m ≤ n ∧
    gfNumIter p (some ⟨m, P⟩) = p.n_iter_sub ∧
    (∀ (i : Fin n) (k : Fin d) (h : (i : Nat) < m),
      gfInit rand (some ⟨m, P⟩) i k = P ⟨i, h⟩ k) ∧
    (∀ (i : Fin n) (k : Fin d), m ≤ (i : Nat) →
      gfInit rand (some ⟨m, P⟩) i k = (1 / 100) * rand i k) := by
  refine ⟨hmn, rfl, ?_, ?_⟩
  · intro i k h
    simp only [gfInit, Matrix.of_apply]
    rw [dif_pos h]
  · intro i k h
    simp only [gfInit, Matrix.of_apply]
    rw [dif_neg (by omega)]

/-- Witness for `warmstart_init_and_budget` with `n = 2`, `m = 1`. -/
theorem warmstart_init_and_budget_witness :
    1 ≤ 2 ∧
    gfNumIter gfP1 (some ⟨1, !![(5 : ℚ)]⟩) = gfP1.n_iter_sub ∧
    gfInit !![(7 : ℚ); 9] (some ⟨1, !![(5 : ℚ)]⟩) 0 0 = !![(5 : ℚ)] 0 0 ∧
    gfInit !![(7 : ℚ); 9] (some ⟨1, !![(5 : ℚ)]⟩) 1 0 = (1 / 100) * !![(7 : ℚ); 9] 1 0 := by
  obtain ⟨h0, h1, h2, h3⟩ :=
    warmstart_init_and_budget gfP1 !![(7 : ℚ); 9] !![(5 : ℚ)] (by decide)
  exact ⟨h0, h1, h2 0 0 (by decide), h3 1 0 (by decide)⟩

theorem edgePairs_pos {n : Nat} (A : Matrix (Fin n) (Fin n) ℚ) (ij : Fin n × Fin n)
    (h : ij ∈ edgePairs A) : 0 < A ij.1 ij.2 := by
  simp only [edgePairs, List.mem_flatMap, List.mem_filterMap] at h
  obtain ⟨i, _, j, _, hj⟩ := h
  by_cases hpos : 0 < A i j
  · rw [if_pos hpos] at hj
    cases hj
    exact hpos
  · rw [if_neg hpos] at hj
    exact absurd hj (by simp)

theorem edgeSweep_no_upper {n d : Nat} (p : GFParams) (eta : ℚ) (prevEmbed : PrevEmbed d)
    (A : Matrix (Fin n) (Fin n) ℚ) :
    ∀ (pairs : List (Fin n × Fin n)) (st : Matrix (Fin n) (Fin d) ℚ × Bool),
      (∀ ij ∈ pairs, ¬ ((ij.1 : Nat) < (ij.2 : Nat))) →
      edgeSweep p eta prevEmbed A pairs st = st := by
  intro pairs
  induction pairs with
  | nil => intro st _; rfl
  | cons ij rest ih =>
    intro st h
    have hij : ¬ ((ij.1 : Nat) < (ij.2 : Nat)) := h ij (List.mem_cons_self ij rest)
    simp only [edgeSweep, List.foldl_cons, if_neg hij]
    exact ih st fun x hx => h x (List.mem_cons_of_mem ij hx)

theorem runIters_stuck {n d : Nat} (p : GFParams) (eta : ℚ) (prevEmbed : PrevEmbed d)
    (A : Matrix (Fin n) (Fin n) ℚ) (pairs : List (Fin n × Fin n)) (t : Nat)
    (st : Matrix (Fin n) (Fin d) ℚ × Bool)
    (hsweep : edgeSweep p eta prevEmbed A pairs st = st) (hst : st.2 = false) :
    runIters p eta prevEmbed A pairs (t + 1) 0 st = .error "UnboundLocalError" := by
  simp only [runIters, hsweep]
  rw [if_pos (show True ∧ st.2 = false from ⟨trivial, hst⟩)]

/-- C10: if the (symmetric) adjacency matrix has no entry `A[i,j] > 0` with
`i < j` and the iteration budget is at least `1`, `learn_embedding` does
not return an embedding: on iteration `0` the diagnostic after the edge
loop reads the never-assigned local `delPhi` and the call fails with an
unbound-local-variable error. -/
theorem learn_embedding_no_upper_edge_raises {n d : Nat} (p : GFParams) (eta : ℚ)
    (A : Matrix (Fin n) (Fin n) ℚ) (rand : Matrix (Fin n) (Fin d) ℚ) (prevEmbed : PrevEmbed d)
    (hsym : allcloseSym A = true)
    (hedge : ∀ i j : Fin n, (i : Nat) < (j : Nat) → ¬ 0 < A i j)
    (hiter : 1 ≤ gfNumIter p prevEmbed) :
    learn_embedding p eta A rand prevEmbed = .error "UnboundLocalError" := by
  have hpairs : ∀ ij ∈ edgePairs A, ¬ ((ij.1 : Nat) < (ij.2 : Nat)) := by
    intro ij hij hlt
    exact hedge ij.1 ij.2 hlt (edgePairs_pos A ij hij)
  obtain ⟨t, ht⟩ : ∃ t, gfNumIter p prevEmbed = t + 1 := by
    cases hgn : gfNumIter p prevEmbed with
    | zero => omega
    | succ t => exact ⟨t, rfl⟩
  simp only [learn_embedding, hsym, if_true, ht]
  rw [runIters_stuck p eta prevEmbed A (edgePairs A) t _
    (edgeSweep_no_upper p eta prevEmbed A (edgePairs A) _ hpairs) rfl]
  rfl

/-- Witness for `learn_embedding_no_upper_edge_raises` on the one-node
graph with no edges (zero adjacency matrix, one iteration, cold start). -/
theorem learn_embedding_no_upper_edge_raises_witness :
    learn_embedding gfP8 1 (0 : Matrix (Fin 1) (Fin 1) ℚ) (0 : Matrix (Fin 1) (Fin 1) ℚ) none =
      .error "UnboundLocalError" :=
  learn_embedding_no_upper_edge_raises gfP8 1 0 0 none (by with_unfolding_all rfl)
    (of_decide_eq_true (by with_unfolding_all rfl))
    (by decide)

theorem detExec_eq_det : ∀ (n : Nat) (A : Matrix (Fin n) (Fin n) ℚ), detExec A = A.det := by
  intro n
  induction n with
  | zero => intro A; rw [Matrix.det_fin_zero]; rfl
  | succ n ih =>
    intro A
    simp only [detExec]
    rw [Matrix.det_succ_row_zero]
    exact Finset.sum_congr rfl fun j _ => by rw [ih]

theorem adjExec_eq_adjugate : ∀ (n : Nat) (A : Matrix (Fin n) (Fin n) ℚ),
    adjExec A = A.adjugate := by
  intro n
  cases n with
  | zero =>
    intro A
    funext i j
    exact i.elim0
  | succ n =>
    intro A
    funext i j
    rw [Matrix.adjugate_fin_succ_eq_det_submatrix]
    simp only [adjExec, Matrix.of_apply]
    rw [detExec_eq_det]

theorem matInv_eq_inv {n : Nat} (A : Matrix (Fin n) (Fin n) ℚ) : matInv A = A⁻¹ := by
  rw [Matrix.inv_def, Ring.inverse_eq_inv]
  unfold matInv
  rw [detExec_eq_det, adjExec_eq_adjugate]

/-- C6: for consecutive adjacency matrices the driver's penalty vector is
`kappa_base / row_sum_i` where the row sums are those of
`S = (I - 0.01·ΔA)⁻¹ · (0.01·ΔA)` with `ΔA = |A_t - A_{t-1}|`, any zero row
sum clamped to `0.01` (the inverse taken whenever `M_g` is nonsingular). -/
theorem tsKappas_matches_spec_formula {n : Nat} (kappa_base : ℚ)
    (A_prev A_curr : Matrix (Fin n) (Fin n) ℚ)
    (h : ((1 : Matrix (Fin n) (Fin n) ℚ) -
        (1 / 100 : ℚ) • Matrix.of fun i j => |A_curr i j - A_prev i j|).det ≠ 0) :
    tsKappas kappa_base A_prev A_curr = .ok fun i =>
      kappa_base / clampRow (∑ j,
        ((((1 : Matrix (Fin n) (Fin n) ℚ) -
            (1 / 100 : ℚ) • Matrix.of fun a b => |A_curr a b - A_prev a b|)⁻¹ *
          ((1 / 100 : ℚ) • Matrix.of fun a b => |A_curr a b - A_prev a b|)) i j)) := by
  have hd : detExec ((1 : Matrix (Fin n) (Fin n) ℚ) -
      (1 / 100 : ℚ) • Matrix.of fun i j => |A_curr i j - A_prev i j|) ≠ 0 := by
    rw [detExec_eq_det]; exact h
  simp only [tsKappas]
  rw [if_neg hd, matInv_eq_inv]

/-- Witness for `tsKappas_matches_spec_formula` on a pair of identical
one-node snapshots (`ΔA = 0`, `M_g = I`). -/
theorem tsKappas_matches_spec_formula_witness :
    tsKappas 1 (0 : Matrix (Fin 1) (Fin 1) ℚ) (0 : Matrix (Fin 1) (Fin 1) ℚ) = .ok fun i =>
      1 / clampRow (∑ j,
        ((((1 : Matrix (Fin 1) (Fin 1) ℚ) -
            (1 / 100 : ℚ) • Matrix.of fun a b =>
              |(0 : Matrix (Fin 1) (Fin 1) ℚ) a b - (0 : Matrix (Fin 1) (Fin 1) ℚ) a b|)⁻¹ *
          ((1 / 100 : ℚ) • Matrix.of fun a b =>
            |(0 : Matrix (Fin 1) (Fin 1) ℚ) a b - (0 : Matrix (Fin 1) (Fin 1) ℚ) a b|)) i j)) :=
  tsKappas_matches_spec_formula 1 0 0 (by
    norm_num [Matrix.det_fin_one, Matrix.sub_apply, Matrix.smul_apply, Matrix.of_apply,
      Matrix.one_apply, Matrix.zero_apply])

/-- C1: evaluation at a concrete failing input.  On two identical
two-node snapshots the controller's per-node vector is `kappa_t = 100`
(for `kappa_base = 1`), yet the factorization step weighs the smoothness
gradient with the scalar `kappa_base`: the source run yields second-step
entry `11/5`, whereas the claim-side driver that really passes `kappa_t`
to the factorization (`learn_embeddingsPN`) yields `352/25 ≠ 11/5`. -/
theorem driver_smoothness_uses_kappa_base_eval :
    isOkE (tsKappas (1 : ℚ) adjC1 adjC1) = true ∧
    kappasVal (tsKappas (1 : ℚ) adjC1 adjC1) 0 = 100 ∧
    runEtas (learn_embeddings gfP1 [adjC1, adjC1] randC1 none) = [1, 1 / 10] ∧
    entryAt (runXs (learn_embeddings gfP1 [adjC1, adjC1] randC1 none)) 0 0 0 = 4 ∧
    entryAt (runXs (learn_embeddings gfP1 [adjC1, adjC1] randC1 none)) 1 0 0 = 11 / 5 ∧
    entryAt (runXs (learn_embeddingsPN gfP1 [adjC1, adjC1] randC1 none)) 1 0 0 = 352 / 25 ∧
    (11 : ℚ) / 5 ≠ 352 / 25 :=
  of_decide_eq_true (by with_unfolding_all rfl)

theorem driverLoop_lengths_and_eta {n d : Nat} (p : GFParams)
    (rand : Nat → Matrix (Fin n) (Fin d) ℚ) :
    ∀ (rest : List (Matrix (Fin n) (Fin n) ℚ)) (A_prev : Matrix (Fin n) (Fin n) ℚ)
      (prevX : Option (Matrix (Fin n) (Fin d) ℚ)) (eta : ℚ) (t : Nat)
      (r : List (Option (Matrix (Fin n) (Fin d) ℚ)) × List ℚ),
      driverLoop p rand A_prev prevX eta t rest = .ok r →
      r.1.length = rest.length ∧ r.2.length = rest.length ∧
      ∀ i < rest.length, r.2.getD i 0 = eta / 10 ^ (i + 1) := by
  intro rest
  induction rest with
  | nil =>
    intro A_prev prevX eta t r hr
    unfold driverLoop at hr
    cases hr
    simp
  | cons A rest ih =>
    intro A_prev prevX eta t r hr
    unfold driverLoop at hr
    split at hr
    · simp at hr
    · split at hr
      · simp at hr
      · rename_i kappas _ P
        dsimp only at hr
        split at hr
        · simp at hr
        · rename_i X hle
          split at hr
          · simp at hr
          · rename_i r2 hdl
            cases hr
            obtain ⟨h1, h2, h3⟩ := ih A X (eta / 10) (t + 1) r2 hdl
            refine ⟨by simp [h1], by simp [h2], ?_⟩
            intro i hi
            cases i with
            | zero => simp [pow_one]
            | succ i =>
              simp only [List.getD_cons_succ]
              rw [h3 i (by simpa using hi), div_div, ← pow_succ']

/-- C8: a completed `learn_embeddings` run over `L` snapshots records one
learning-rate value per step, starting at `eta` and divided by `10` exactly
once per step after the first — the value used at step `t` is
`eta / 10 ^ t`, monotone across the whole sequence and never reset, so the
decay is applied `L - 1` times in total (twice for a 3-snapshot run). -/
theorem learn_embeddings_eta_decay {n d : Nat} (p : GFParams)
    (snaps : List (Matrix (Fin n) (Fin n) ℚ)) (rand : Nat → Matrix (Fin n) (Fin d) ℚ)
    (initPrev : PrevEmbed d) (r : List (Option (Matrix (Fin n) (Fin d) ℚ)) × List ℚ)
    (hr : learn_embeddings p snaps rand initPrev = .ok r) :
    r.1.length = snaps.length ∧ r.2.length = snaps.length ∧
    ∀ t < snaps.length, r.2.getD t 0 = p.eta / 10 ^ t := by
  cases snaps with
  | nil => simp [learn_embeddings] at hr
  | cons A0 rest =>
    unfold learn_embeddings at hr
    dsimp only at hr
    cases hle : learn_embedding p p.eta A0 (rand 0) initPrev with
    | error e => rw [hle] at hr; simp at hr
    | ok X0 =>
      rw [hle] at hr
      dsimp only at hr
      cases hdl : driverLoop p rand A0 X0 p.eta 1 rest with
      | error e => rw [hdl] at hr; simp at hr
      | ok r2 =>
        rw [hdl] at hr
        dsimp only at hr
        cases hr
        obtain ⟨h1, h2, h3⟩ := driverLoop_lengths_and_eta p rand rest A0 X0 p.eta 1 r2 hdl
        refine ⟨by simp [h1], by simp [h2], ?_⟩
        intro t ht
        cases t with
        | zero => simp
        | succ t =>
          simp only [List.getD_cons_succ]
          exact h3 t (by simpa using ht)

/-- Witness for `learn_embeddings_eta_decay` on a successful 3-snapshot
run: the recorded learning-rate history has length 3 and equals
`[1, 1/10, 1/100]`, i.e. the 10x decay was applied exactly twice. -/
theorem learn_embeddings_eta_decay_witness :
    ∃ r, learn_embeddings gfP8 [adjC1, adjC1, adjC1] randC1 none = .ok r ∧
      r.1.length = 3 ∧ r.2.length = 3 ∧ ∀ t < 3, r.2.getD t 0 = gfP8.eta / 10 ^ t := by
  cases hr : learn_embeddings gfP8 [adjC1, adjC1, adjC1] randC1 none with
  | error e =>
    have hok : isOkE (learn_embeddings gfP8 [adjC1, adjC1, adjC1] randC1 none) = true :=
      of_decide_eq_true (by with_unfolding_all rfl)
    rw [hr] at hok
    exact absurd hok (by simp [isOkE])
  | ok r =>
    obtain ⟨h1, h2, h3⟩ :=
      learn_embeddings_eta_decay gfP8 [adjC1, adjC1, adjC1] randC1 none r hr
    exact ⟨r, rfl, h1, h2, h3⟩
